import Mathlib

/-!
Verification of the product-recommendation core (ProductRecommendationApp.py):
catalog loading, description cleaning, keyword search, and the TF-IDF /
cosine-similarity recommender, shallowly embedded in Lean.

Conventions of the embedding:
* a pandas row is a `Product` with the two columns the logic reads; a missing
  (NaN) description cell is `none`;
* Python `str.replace` is `pyReplace` (left-to-right, non-overlapping,
  replacement text is not rescanned);
* the reactive UI is dropped; each stateless computation of the script is a
  pure function of its inputs, and the result of the network fetch is passed
  in as an `Except` value.
-/

/-- Catalog row: the two columns used by the logic (lines 138-221 of the
source read only these).  A missing description cell (pandas NaN) is `none`. -/
structure Product where
  id : String
  description : Option String
deriving DecidableEq

/-- Python `str.replace` on character lists, with a fuel argument that bounds
the recursion (the input length always suffices, since every step consumes at
least one character).  It scans left to right, splices in `rep` at each
non-overlapping occurrence of `pat`, and never rescans replacement text. -/
def replaceAllF (pat rep : List Char) : Nat → List Char → List Char
  | _, [] => []
  | 0, s => s
  | fuel+1, c :: s =>
    if pat.isPrefixOf (c :: s) then rep ++ replaceAllF pat rep fuel (List.drop (pat.length - 1) s)
    else c :: replaceAllF pat rep fuel s

/-- Python `s.replace(pat, rep)` for a non-empty pattern (all patterns used by
the script are non-empty; an empty pattern is returned unchanged here). -/
def pyReplace (s pat rep : String) : String :=
  if pat.data = [] then s else ⟨replaceAllF pat.data rep.data s.data.length s.data⟩

/-- Description cleaning exactly as on lines 148-152 of the source: the five
replacements in program order, the double line break first, then the list
container markers, then the list item markers. -/
def clean_description (s : String) : String :=
  pyReplace (pyReplace (pyReplace (pyReplace (pyReplace s ("<br><br>") ("\n\n")) ("<ul>") ("")) ("</ul>") ("")) ("<li>") ("- ")) ("</li>") ("\n")

/-- Whether `pat` occurs as a contiguous substring of `s`. -/
def occursIn (pat s : List Char) : Bool := s.tails.any (fun t => pat.isPrefixOf t)

/-- Whether any of the five markup markers handled by the cleaner occurs in
the string. -/
def hasMarkup (s : String) : Bool :=
  occursIn ("<br><br>").data s.data || occursIn ("<ul>").data s.data ||
  occursIn ("</ul>").data s.data || occursIn ("<li>").data s.data ||
  occursIn ("</li>").data s.data

/-- Error raised by the display path: calling a string method on the NaN a
missing cell holds raises AttributeError in Python. -/
inductive CleanError where
  | attributeError
deriving DecidableEq

/-- Lines 145-152 of the source as applied to one description cell: the raw
cell value is taken from the row and passed straight into the replacement
chain, so a missing (NaN) cell raises rather than being defaulted. -/
def cleanCell : Option String → Except CleanError String
  | none => .error .attributeError
  | some d => .ok (clean_description d)

theorem replaceAllF_of_not_occurs (pat rep : List Char) :
    ∀ (s : List Char) (fuel : Nat), occursIn pat s = false → replaceAllF pat rep fuel s = s := by
  intro s
  induction s with
  | nil => intro fuel _; cases fuel <;> rfl
  | cons c cs ih =>
    intro fuel h
    rw [occursIn, List.tails_cons, List.any_cons] at h
    have h1 : pat.isPrefixOf (c :: cs) = false := (Bool.or_eq_false_iff.mp h).1
    have h2 : occursIn pat cs = false := (Bool.or_eq_false_iff.mp h).2
    cases fuel with
    | zero => rfl
    | succ fuel =>
      rw [replaceAllF, if_neg (by simp [h1])]
      exact congrArg (c :: ·) (ih fuel h2)

theorem pyReplace_of_not_occurs (s pat rep : String) (h : occursIn pat.data s.data = false) :
    pyReplace s pat rep = s := by
  unfold pyReplace
  split
  · rfl
  · rw [replaceAllF_of_not_occurs pat.data rep.data s.data s.data.length h]

/-- C4 (counterexample): cleaning is not idempotent on every string; removing
the list-container marker can splice a new marker together out of surrounding
text, which a second pass then removes. -/
theorem c4_counterexample :
    clean_description (clean_description ("<u<ul>l>")) ≠ clean_description ("<u<ul>l>") := by
  decide

/-- C4 (amended): on markup-free strings in the sense of the spec (none of
the five markers occurs), the cleaner is the identity, hence idempotent:
applying it twice yields the same result as applying it once. -/
theorem c4_amended_theorem (s : String) (h : hasMarkup s = false) :
    clean_description s = s ∧ clean_description (clean_description s) = clean_description s := by
  have h5 := h
  unfold hasMarkup at h5
  rw [Bool.or_eq_false_iff, Bool.or_eq_false_iff, Bool.or_eq_false_iff,
    Bool.or_eq_false_iff] at h5
  obtain ⟨⟨⟨⟨hbr, hul⟩, hcul⟩, hli⟩, hcli⟩ := h5
  have hs : clean_description s = s := by
    unfold clean_description
    rw [pyReplace_of_not_occurs s _ _ hbr, pyReplace_of_not_occurs s _ _ hul,
      pyReplace_of_not_occurs s _ _ hcul, pyReplace_of_not_occurs s _ _ hli,
      pyReplace_of_not_occurs s _ _ hcli]
  refine ⟨hs, ?_⟩
  rw [hs]
  exact hs

theorem c4_amended_witness :
    hasMarkup ("plain red shoe") = false ∧
      clean_description ("plain red shoe") = "plain red shoe" ∧
      clean_description (clean_description ("plain red shoe")) =
        clean_description ("plain red shoe") := by
  refine ⟨by decide, ?_, ?_⟩
  · exact (c4_amended_theorem ("plain red shoe") (by decide)).1
  · exact (c4_amended_theorem ("plain red shoe") (by decide)).2

/-- C5: the cleaner performs exactly the four substitutions in program order;
traced on the example description, the double-line-break pass leaves the text
unchanged, the container markers vanish, each item opener becomes a bullet,
each item closer becomes a newline, and the composite maps the example to
"- red\n- shoe\n". -/
theorem c5_theorem :
    pyReplace ("<ul><li>red</li><li>shoe</li></ul>") ("<br><br>") ("\n\n") =
        "<ul><li>red</li><li>shoe</li></ul>" ∧
      pyReplace ("<ul><li>red</li><li>shoe</li></ul>") ("<ul>") ("") =
        "<li>red</li><li>shoe</li></ul>" ∧
      pyReplace ("<li>red</li><li>shoe</li></ul>") ("</ul>") ("") =
        "<li>red</li><li>shoe</li>" ∧
      pyReplace ("<li>red</li><li>shoe</li>") ("<li>") ("- ") =
        "- red</li>- shoe</li>" ∧
      pyReplace ("- red</li>- shoe</li>") ("</li>") ("\n") = "- red\n- shoe\n" ∧
      clean_description ("<ul><li>red</li><li>shoe</li></ul>") = "- red\n- shoe\n" := by
  decide

/-- C8 (counterexample): on a missing (NaN) description cell the cleaning
path raises an AttributeError instead of returning the empty string. -/
theorem c8_counterexample :
    cleanCell none ≠ .ok "" ∧ cleanCell none = .error .attributeError := by
  exact ⟨fun h => Except.noConfusion h, rfl⟩

/-- C8 (amended): an empty description is cleaned to the empty string, but a
missing (absent/NaN) description cell makes the cleaning path fail with an
AttributeError; it is not defaulted to the empty string. -/
theorem c8_amended_theorem :
    cleanCell (some "") = .ok "" ∧ cleanCell none = .error .attributeError := by
  exact ⟨rfl, rfl⟩

/-- Characters the Python re module treats as metacharacters.  The sidebar
search (line 221) calls pandas str.contains with its regex default, so the
query is compiled as a regular expression, not matched literally. -/
def reMeta (c : Char) : Bool :=
  (['.', '^', '$', '*', '+', '?', '\x7b', '\x7d', '[', ']', '\\', '|', '(', ')']).contains c

/-- Matching of the regular-expression fragment the development needs (literal
characters plus the any-character metacharacter, with the IGNORECASE flag that
case=False sets): does the pattern match at the front of the text?  The
any-character metacharacter matches every character except a newline. -/
def reMatchHere : List Char → List Char → Bool
  | [], _ => true
  | _ :: _, [] => false
  | p :: ps, c :: cs =>
    (if p = '.' then c != '\n' else p.toLower == c.toLower) && reMatchHere ps cs

/-- Python re.search over the fragment: the pattern matches at some position
of the text. -/
def reSearch (pat s : List Char) : Bool := s.tails.any (fun t => reMatchHere pat t)

/-- Modelled from the spec for comparison with the code: the query "matched
case-insensitively as a substring of description", i.e. a literal (not regex)
case-insensitive substring test. -/
def substrCI (pat s : List Char) : Bool :=
  (s.map Char.toLower).tails.any (fun t => (pat.map Char.toLower).isPrefixOf t)

/-- Keyword search of lines 220-221: nothing is searched for a falsy (empty)
query, otherwise the rows whose description matches the query-as-regex
case-insensitively are kept in catalog order, with missing descriptions
counting as non-matches (na=False). -/
def searchCatalog (cat : List Product) (query : String) : List Product :=
  if query.data = [] then []
  else cat.filter (fun p => match p.description with
    | some d => reSearch query.data d.data
    | none => false)

theorem tails_map_eq {α β : Type} (f : α → β) :
    ∀ l : List α, (l.map f).tails = l.tails.map (List.map f) := by
  intro l
  induction l with
  | nil => rfl
  | cons a l ih => simp [List.tails_cons, ih]

theorem reMatchHere_eq_of_no_meta :
    ∀ (pat s : List Char), (∀ c ∈ pat, reMeta c = false) →
      reMatchHere pat s = (pat.map Char.toLower).isPrefixOf (s.map Char.toLower) := by
  intro pat
  induction pat with
  | nil => intro s _; cases s <;> rfl
  | cons p ps ih =>
    intro s h
    have hp : p ≠ '.' := by
      intro hdot
      have := h p (List.mem_cons_self p ps)
      rw [hdot] at this
      exact absurd this (by decide)
    cases s with
    | nil => rfl
    | cons c cs =>
      rw [reMatchHere, if_neg hp]
      rw [List.map_cons, List.map_cons, List.isPrefixOf_cons₂]
      rw [ih cs (fun a ha => h a (List.mem_cons_of_mem p ha))]

theorem reSearch_eq_substrCI (pat s : List Char) (h : ∀ c ∈ pat, reMeta c = false) :
    reSearch pat s = substrCI pat s := by
  unfold reSearch substrCI
  rw [tails_map_eq, List.any_map]
  have hpt : ∀ t, reMatchHere pat t = (pat.map Char.toLower).isPrefixOf (t.map Char.toLower) :=
    fun t => reMatchHere_eq_of_no_meta pat t h
  simp only [hpt]
  rfl

/-- C6 (counterexample): the query is compiled as a regular expression, so a
query with a metacharacter can match a description that does not contain it as
a literal substring, contradicting the literal-substring contract. -/
theorem c6_counterexample :
    searchCatalog [⟨"P", some ("abc")⟩] ("a.c") = [⟨"P", some ("abc")⟩] ∧
      substrCI ("a.c").data ("abc").data = false := by
  decide

/-- C6 (amended): for queries free of regex metacharacters the search returns
exactly the products whose description contains the query case-insensitively
as a literal substring, in catalog order, and the empty query returns the
empty result, never the full catalog. -/
theorem c6_amended_theorem (cat : List Product) (q : String)
    (hm : ∀ c ∈ q.data, reMeta c = false) :
    (q ≠ "" → searchCatalog cat q = cat.filter (fun p => match p.description with
      | some d => substrCI q.data d.data
      | none => false)) ∧ searchCatalog cat "" = [] := by
  constructor
  · intro hne
    have hd : ¬ q.data = [] := fun hd => hne (String.ext hd)
    unfold searchCatalog
    rw [if_neg hd]
    apply List.filter_congr
    intro p _
    cases p.description with
    | none => rfl
    | some d => exact reSearch_eq_substrCI q.data d.data hm
  · rfl

theorem c6_amended_witness :
    (∀ c ∈ ("red" : String).data, reMeta c = false) ∧
      searchCatalog [⟨"A", some ("red shoe")⟩, ⟨"B", some ("BLUE")⟩] ("red") =
        [⟨"A", some ("red shoe")⟩] ∧
      searchCatalog [⟨"A", some ("red shoe")⟩, ⟨"B", some ("BLUE")⟩] ("") = [] := by
  have h0 := c6_amended_theorem [⟨"A", some ("red shoe")⟩, ⟨"B", some ("BLUE")⟩] ("") (by decide)
  have h1 := c6_amended_theorem [⟨"A", some ("red shoe")⟩, ⟨"B", some ("BLUE")⟩] ("red") (by decide)
  refine ⟨by decide, ?_, h0.2⟩
  rw [h1.1 (by decide)]
  decide

/-- C10: a product with a missing (NaN) description never appears in the
search results for a non-empty query: na=False makes missing cells a
non-match, not an error and not an empty string. -/
theorem c10_theorem (cat : List Product) (q : String) (p : Product) (hq : q ≠ "")
    (hp : p ∈ searchCatalog cat q) : p.description ≠ none := by
  have hd : ¬ q.data = [] := fun hd => hq (String.ext hd)
  unfold searchCatalog at hp
  rw [if_neg hd] at hp
  rcases List.mem_filter.mp hp with ⟨-, hpred⟩
  intro hnone
  rw [hnone] at hpred
  exact Bool.noConfusion hpred

theorem c10_witness :
    (("red" : String) ≠ "") ∧
      (⟨"A", some ("red")⟩ : Product) ∈ searchCatalog [⟨"N", none⟩, ⟨"A", some ("red")⟩] ("red") ∧
      (⟨"A", some ("red")⟩ : Product).description ≠ none :=
  ⟨by decide, by decide,
    c10_theorem [⟨"N", none⟩, ⟨"A", some ("red")⟩] ("red") ⟨"A", some ("red")⟩
      (by decide) (by decide)⟩

/-- Errors the loading stage can surface to the user (st.error calls). -/
inductive LoadError where
  | dataUnavailable
  | emptyCatalog
deriving DecidableEq

/-- Observable outcome of the session-start stage: which error messages were
surfaced, whether the script halted (st.stop), and the catalog the rest of
the script runs with. -/
structure SessionStart where
  messages : List LoadError
  halted : Bool
  catalog : List Product
deriving DecidableEq

/-- Lines 13-23: load_data returns the parsed table, or surfaces the load
error and returns an empty table when the fetch/parse raises. -/
def load_data (fetch : Except String (List Product)) : List LoadError × List Product :=
  match fetch with
  | .ok df => ([], df)
  | .error _ => ([LoadError.dataUnavailable], [])

/-- Lines 13-29: the load followed by the emptiness check that surfaces the
empty-dataset error and stops the script. -/
def startSession (fetch : Except String (List Product)) : SessionStart :=
  match load_data fetch with
  | (errs, df) =>
    if df.isEmpty then ⟨errs ++ [LoadError.emptyCatalog], true, df⟩
    else ⟨errs, false, df⟩

/-- C9: a failed fetch/parse surfaces the data-unavailable error and the
session halts; a successfully parsed but empty table surfaces exactly the
distinct empty-catalog error and the session halts; a non-empty parse
surfaces no error, does not halt, and the catalog is the non-empty table. -/
theorem c9_theorem (fetch : Except String (List Product)) :
    (∀ e, fetch = .error e →
      LoadError.dataUnavailable ∈ (startSession fetch).messages ∧
        (startSession fetch).halted = true) ∧
    (fetch = .ok [] →
      (startSession fetch).messages = [LoadError.emptyCatalog] ∧
        (startSession fetch).halted = true) ∧
    (∀ df, fetch = .ok df → df ≠ [] →
      (startSession fetch).messages = [] ∧ (startSession fetch).halted = false ∧
        (startSession fetch).catalog = df ∧ (startSession fetch).catalog ≠ []) := by
  refine ⟨?_, ?_, ?_⟩
  · rintro e rfl
    exact ⟨List.mem_cons_self _ _, rfl⟩
  · rintro rfl
    exact ⟨rfl, rfl⟩
  · rintro df rfl hne
    have hdf : df.isEmpty = false := by
      cases df with
      | nil => exact absurd rfl hne
      | cons a l => rfl
    have hss : startSession (.ok df) =
        if df.isEmpty then ⟨[] ++ [LoadError.emptyCatalog], true, df⟩ else ⟨[], false, df⟩ := rfl
    rw [hss, if_neg (by rw [hdf]; exact Bool.false_ne_true)]
    exact ⟨rfl, rfl, rfl, hne⟩

theorem c9_witness :
    (LoadError.dataUnavailable ∈ (startSession (.error ("boom"))).messages ∧
      (startSession (.error ("boom"))).halted = true) ∧
    ((startSession (.ok [])).messages = [LoadError.emptyCatalog] ∧
      (startSession (.ok [])).halted = true) ∧
    (startSession (.ok [⟨"A", some ("x")⟩])).catalog ≠ [] :=
  ⟨(c9_theorem (.error ("boom"))).1 "boom" rfl,
    (c9_theorem (.ok [])).2.1 rfl,
    ((c9_theorem (.ok [⟨"A", some ("x")⟩])).2.2 [⟨"A", some ("x")⟩] rfl
      (by decide)).2.2.2⟩

/-- Word characters of the sklearn token pattern (ASCII w-class characters:
letters, digits, underscore). -/
def wordChar (c : Char) : Bool := c.isAlphanum || c = '_'

/-- Maximal runs of word characters of a character list (single accumulator
pass); the accumulator holds the current run reversed. -/
def runsAux : List Char → List Char → List (List Char)
  | [], acc => if acc = [] then [] else [acc.reverse]
  | c :: s, acc =>
    if wordChar c then runsAux s (c :: acc)
    else if acc = [] then runsAux s [] else acc.reverse :: runsAux s []

/-- The frozen English stop word list sklearn ships and the script selects
with stop_words="english". -/
def stopWords : List String :=
  ["a", "about", "above", "across", "after", "afterwards", "again", "against",
   "all", "almost", "alone", "along", "already", "also", "although", "always",
   "am", "among", "amongst", "amoungst", "amount", "an", "and", "another",
   "any", "anyhow", "anyone", "anything", "anyway", "anywhere", "are",
   "around", "as", "at", "back", "be", "became", "because", "become",
   "becomes", "becoming", "been", "before", "beforehand", "behind", "being",
   "below", "beside", "besides", "between", "beyond", "bill", "both",
   "bottom", "but", "by", "call", "can", "cannot", "cant", "co", "con",
   "could", "couldnt", "cry", "de", "describe", "detail", "do", "done",
   "down", "due", "during", "each", "eg", "eight", "either", "eleven",
   "else", "elsewhere", "empty", "enough", "etc", "even", "ever", "every",
   "everyone", "everything", "everywhere", "except", "few", "fifteen",
   "fifty", "fill", "find", "fire", "first", "five", "for", "former",
   "formerly", "forty", "found", "four", "from", "front", "full", "further",
   "get", "give", "go", "had", "has", "hasnt", "have", "he", "hence", "her",
   "here", "hereafter", "hereby", "herein", "hereupon", "hers", "herself",
   "him", "himself", "his", "how", "however", "hundred", "i", "ie", "if",
   "in", "inc", "indeed", "interest", "into", "is", "it", "its", "itself",
   "keep", "last", "latter", "latterly", "least", "less", "ltd", "made",
   "many", "may", "me", "meanwhile", "might", "mill", "mine", "more",
   "moreover", "most", "mostly", "move", "much", "must", "my", "myself",
   "name", "namely", "neither", "never", "nevertheless", "next", "nine",
   "no", "nobody", "none", "noone", "nor", "not", "nothing", "now",
   "nowhere", "of", "off", "often", "on", "once", "one", "only", "onto",
   "or", "other", "others", "otherwise", "our", "ours", "ourselves", "out",
   "over", "own", "part", "per", "perhaps", "please", "put", "rather", "re",
   "same", "see", "seem", "seemed", "seeming", "seems", "serious", "several",
   "she", "should", "show", "side", "since", "sincere", "six", "sixty", "so",
   "some", "somehow", "someone", "something", "sometime", "sometimes",
   "somewhere", "still", "such", "system", "take", "ten", "than", "that",
   "the", "their", "them", "themselves", "then", "thence", "there",
   "thereafter", "thereby", "therefore", "therein", "thereupon", "these",
   "they", "thick", "thin", "third", "this", "those", "though", "three",
   "through", "throughout", "thru", "thus", "to", "together", "too", "top",
   "toward", "towards", "twelve", "twenty", "two", "un", "under", "until",
   "up", "upon", "us", "very", "via", "was", "we", "well", "were", "what",
   "whatever", "when", "whence", "whenever", "where", "whereafter",
   "whereas", "whereby", "wherein", "whereupon", "wherever", "whether",
   "which", "while", "whither", "who", "whoever", "whole", "whom", "whose",
   "why", "will", "with", "within", "without", "would", "yet", "you",
   "your", "yours", "yourself", "yourselves"]

/-- TfidfVectorizer's analyzer: lowercase the text, take the maximal word
character runs of at least two characters (the default token pattern), then
drop stop words. -/
def tokensOf (d : String) : List String :=
  (((runsAux (d.data.map Char.toLower) []).filter (fun t => 2 ≤ t.length)).map
    (fun t => (⟨t⟩ : String))).filter (fun t => !(stopWords.contains t))

/-- Description cell of row i with the fillna("") of line 184 applied. -/
def descAt (cat : List Product) (i : Nat) : String :=
  ((cat.getD i ⟨"", none⟩).description).getD ""

/-- Term frequency: occurrences of the term among the document's tokens. -/
def tf (d : String) (t : String) : Nat := (tokensOf d).count t

/-- Vocabulary fitted on the whole description column: the distinct terms of
all documents. -/
def vocab (cat : List Product) : List String :=
  ((cat.map (fun p => tokensOf (p.description.getD ""))).flatten).dedup

/-- Document frequency of a term: number of rows whose tokens contain it. -/
def docFreq (cat : List Product) (t : String) : Nat :=
  cat.countP (fun p => (tokensOf (p.description.getD "")).contains t)

/-- Smooth idf of TfidfVectorizer (its defaults smooth_idf=True): the natural
logarithm of (1+n)/(1+df), plus one. -/
noncomputable def idf (cat : List Product) (t : String) : ℝ :=
  Real.log ((1 + (cat.length : ℝ)) / (1 + (docFreq cat t : ℝ))) + 1

/-- Raw tf-idf weight vector of a document, indexed by term. -/
noncomputable def tfidfVec (cat : List Product) (d : String) : String → ℝ :=
  fun t => (tf d t : ℝ) * idf cat t

/-- Row i of the tf-idf matrix of line 184. -/
noncomputable def docVec (cat : List Product) (i : Nat) : String → ℝ :=
  tfidfVec cat (descAt cat i)

/-- Dot product of two term-weight vectors over the vocabulary coordinates. -/
noncomputable def dotV (cat : List Product) (u v : String → ℝ) : ℝ :=
  ((vocab cat).map (fun t => u t * v t)).sum

/-- Cosine similarity as sklearn cosine_similarity computes it on the tf-idf
rows: the dot product of the two rows after each is divided by its Euclidean
norm, with zero-norm rows left as zero (so any similarity against a zero row
is 0).  The l2 row normalisation inside TfidfVectorizer composed with the
renormalisation inside cosine_similarity equals this single division. -/
noncomputable def cosSim (cat : List Product) (u v : String → ℝ) : ℝ :=
  if Real.sqrt (dotV cat u u) = 0 ∨ Real.sqrt (dotV cat v v) = 0 then 0
  else dotV cat u v / (Real.sqrt (dotV cat u u) * Real.sqrt (dotV cat v v))

/-- Entry (i, j) of the similarity matrix of line 185. -/
noncomputable def simRow (cat : List Product) (i j : Nat) : ℝ :=
  cosSim cat (docVec cat i) (docVec cat j)

/-- Comparison modelling numpy argsort on a score row: ascending by score,
with ties fixed in index order.  numpy's default sort (introsort) is not
stable, so on long tied rows the real tie order is unspecified; the general
theorems below use this model only through properties every correct ascending
argsort shares (the sorted scores, the set of positions, the position of a
unique maximum), while the concrete evaluations use rows short enough that
numpy sorts them by insertion sort, which produces exactly this order. -/
def argLe (scores : List ℝ) (i j : Nat) : Prop :=
  scores.getD i 0 < scores.getD j 0 ∨ (scores.getD i 0 = scores.getD j 0 ∧ i ≤ j)

/-- numpy argsort of a score row: the positions sorted by the comparison. -/
noncomputable def argsort (scores : List ℝ) : List Nat :=
  @List.insertionSort Nat (argLe scores) (Classical.decRel _) (List.range scores.length)

/-- Python slice a[-(n+1):-1] (clamping negative starts to the left end). -/
def pySlice (l : List Nat) (n : Nat) : List Nat :=
  (l.take (l.length - 1)).drop (l.length - (n + 1))

/-- First positional index whose id equals the given one, as
df[df['id'] == product_id].index[0] selects it; none when the id is absent,
in which case the subscript raises IndexError. -/
def idIndex? (cat : List Product) (pid : String) : Option Nat :=
  match cat with
  | [] => none
  | p :: rest => if p.id = pid then some 0 else (idIndex? rest pid).map (· + 1)

/-- Exceptions the body of find_related_products raises: the vectorizer's
empty-vocabulary ValueError (line 184) and the IndexError of index[0] on an
absent id (line 186). -/
inductive RecError where
  | emptyVocabulary
  | indexError
deriving DecidableEq

/-- Body of find_related_products, lines 183-188: fit the vectorizer (fails
when the vocabulary is empty), take the similarity matrix, look up the
selected row (fails when the id is absent), argsort that row, keep the slice
[-(n+1):-1] and reverse it.  Returns the selected index with the related
indices. -/
noncomputable def findRelatedBody (pid : String) (cat : List Product) (n : Nat) :
    Except RecError (Nat × List Nat) :=
  if vocab cat = [] then .error .emptyVocabulary
  else match idIndex? cat pid with
  | none => .error .indexError
  | some t => .ok (t, (pySlice (argsort ((List.range cat.length).map (simRow cat t))) n).reverse)

/-- find_related_products, lines 177-191: the body guarded by the catch-all
except clause, which surfaces the exception as a message and returns an empty
frame, so the caller always receives a plain (possibly empty) list. -/
noncomputable def find_related_products (pid : String) (cat : List Product) (n : Nat) :
    List Product :=
  match findRelatedBody pid cat n with
  | .ok (_, rel) => rel.filterMap (fun i => cat[i]?)
  | .error _ => []

instance argLe_total (scores : List ℝ) : IsTotal Nat (argLe scores) := ⟨by
  intro i j
  rcases lt_trichotomy (scores.getD i 0) (scores.getD j 0) with h | h | h
  · exact Or.inl (Or.inl h)
  · rcases Nat.le_total i j with hij | hij
    · exact Or.inl (Or.inr ⟨h, hij⟩)
    · exact Or.inr (Or.inr ⟨h.symm, hij⟩)
  · exact Or.inr (Or.inl h)⟩

instance argLe_transitive (scores : List ℝ) : IsTrans Nat (argLe scores) := ⟨by
  intro a b c hab hbc
  rcases hab with h1 | h1 <;> rcases hbc with h2 | h2
  · exact Or.inl (h1.trans h2)
  · exact Or.inl (h1.trans_eq h2.1)
  · exact Or.inl (h1.1.trans_lt h2)
  · exact Or.inr ⟨h1.1.trans h2.1, h1.2.trans h2.2⟩⟩

theorem argsort_perm (scores : List ℝ) : List.Perm (argsort scores) (List.range scores.length) :=
  @List.perm_insertionSort Nat (argLe scores) (Classical.decRel _) (List.range scores.length)

theorem argsort_sorted (scores : List ℝ) : (argsort scores).Pairwise (argLe scores) :=
  @List.sorted_insertionSort Nat (argLe scores) (Classical.decRel _) _ _ (List.range scores.length)

theorem argsort_length (scores : List ℝ) : (argsort scores).length = scores.length := by
  rw [(argsort_perm scores).length_eq, List.length_range]

theorem argsort_nodup (scores : List ℝ) : (argsort scores).Nodup :=
  ((argsort_perm scores).nodup_iff).mpr (List.nodup_range _)

theorem argsort_mem (scores : List ℝ) (i : Nat) : i ∈ argsort scores ↔ i < scores.length := by
  rw [(argsort_perm scores).mem_iff, List.mem_range]

theorem argsort_last_of_strict_max (scores : List ℝ) (t : Nat) (ht : t < scores.length)
    (hmax : ∀ j < scores.length, j ≠ t → scores.getD j 0 < scores.getD t 0) :
    ∃ ys, argsort scores = ys ++ [t] ∧ t ∉ ys := by
  have hlen : (argsort scores).length = scores.length := argsort_length scores
  have hne : argsort scores ≠ [] := by
    intro h0
    rw [h0] at hlen
    simp only [List.length_nil] at hlen
    omega
  refine ⟨(argsort scores).dropLast, ?_⟩
  have hysu : (argsort scores).dropLast ++ [(argsort scores).getLast hne] = argsort scores :=
    List.dropLast_append_getLast hne
  set u := (argsort scores).getLast hne with hu
  set ys := (argsort scores).dropLast with hys
  have htmem : t ∈ argsort scores := (argsort_mem scores t).mpr ht
  have hnodup : (argsort scores).Nodup := argsort_nodup scores
  have hut : u = t := by
    by_contra hutne
    have htys : t ∈ ys := by
      rcases List.mem_append.mp (hysu ▸ htmem) with hmem | hmem
      · exact hmem
      · rw [List.mem_singleton] at hmem
        exact absurd hmem.symm hutne
    have hsorted : (ys ++ [u]).Pairwise (argLe scores) := by
      rw [hysu]
      exact argsort_sorted scores
    have hle : argLe scores t u :=
      (List.pairwise_append.mp hsorted).2.2 t htys u (List.mem_singleton.mpr rfl)
    have humem : u ∈ argsort scores := by
      rw [← hysu]
      exact List.mem_append_right ys (List.mem_singleton.mpr rfl)
    have hulen : u < scores.length := (argsort_mem scores u).mp humem
    have hlt : scores.getD u 0 < scores.getD t 0 := hmax u hulen hutne
    rcases hle with hc | hc
    · exact absurd hc (not_lt.mpr hlt.le)
    · exact absurd hc.1 (ne_of_gt hlt)
  constructor
  · rw [← hut]
    exact hysu.symm
  · intro htys
    have hnd : (ys ++ [u]).Nodup := by
      rw [hysu]
      exact hnodup
    exact (List.nodup_append.mp hnd).2.2 htys (by rw [hut]; exact List.mem_singleton.mpr rfl)

theorem pySlice_append_last (ys : List Nat) (u : Nat) (n : Nat) :
    pySlice (ys ++ [u]) n = ys.drop (ys.length + 1 - (n + 1)) := by
  unfold pySlice
  rw [List.length_append, List.length_singleton]
  have h1 : ys.length + 1 - 1 = ys.length := by omega
  rw [h1, List.take_left]

theorem pySlice_length (l : List Nat) (n : Nat) : (pySlice l n).length = min n (l.length - 1) := by
  unfold pySlice
  rw [List.length_drop, List.length_take]
  omega

theorem idIndex?_lt (cat : List Product) (pid : String) :
    ∀ t, idIndex? cat pid = some t → t < cat.length := by
  induction cat with
  | nil => intro t h; exact absurd h (by simp [idIndex?])
  | cons p rest ih =>
    intro t h
    unfold idIndex? at h
    split at h
    · cases h
      simp
    · rcases Option.map_eq_some'.mp h with ⟨s, hs, hst⟩
      have := ih s hs
      rw [← hst]
      simp only [List.length_cons]
      omega

theorem idIndex?_eq_none (cat : List Product) (pid : String)
    (h : ∀ p ∈ cat, p.id ≠ pid) : idIndex? cat pid = none := by
  induction cat with
  | nil => rfl
  | cons p rest ih =>
    unfold idIndex?
    rw [if_neg (h p (List.mem_cons_self p rest)),
      ih (fun q hq => h q (List.mem_cons_of_mem p hq))]
    rfl

theorem findRelatedBody_ok {pid : String} {cat : List Product} {n t : Nat} {rel : List Nat}
    (h : findRelatedBody pid cat n = .ok (t, rel)) :
    vocab cat ≠ [] ∧ idIndex? cat pid = some t ∧
      rel = (pySlice (argsort ((List.range cat.length).map (simRow cat t))) n).reverse := by
  unfold findRelatedBody at h
  split at h
  · exact absurd h (by simp)
  · rename_i hvoc
    split at h
    · exact absurd h (by simp)
    · rename_i t2 hidx
      simp only [Except.ok.injEq, Prod.mk.injEq] at h
      refine ⟨hvoc, ?_, ?_⟩
      · rw [hidx, h.1]
      · rw [← h.1]
        exact h.2.symm

theorem idf_pos (cat : List Product) (t : String) : 0 < idf cat t := by
  unfold idf
  have hdf : (docFreq cat t : ℝ) ≤ (cat.length : ℝ) := by
    exact_mod_cast List.countP_le_length _
  have harg : (1 : ℝ) ≤ (1 + (cat.length : ℝ)) / (1 + (docFreq cat t : ℝ)) := by
    rw [le_div_iff₀ (by positivity)]
    linarith
  have hlog := Real.log_nonneg harg
  linarith

theorem tfidfVec_nonneg (cat : List Product) (d : String) (t : String) :
    0 ≤ tfidfVec cat d t := by
  unfold tfidfVec
  exact mul_nonneg (Nat.cast_nonneg _) (idf_pos cat t).le

theorem docVec_nonneg (cat : List Product) (i : Nat) : ∀ t, 0 ≤ docVec cat i t :=
  fun t => tfidfVec_nonneg cat (descAt cat i) t

theorem dotV_self_nonneg (cat : List Product) (u : String → ℝ) : 0 ≤ dotV cat u u := by
  unfold dotV
  apply List.sum_nonneg
  intro x hx
  rcases List.mem_map.mp hx with ⟨t, -, rfl⟩
  exact mul_self_nonneg _

theorem dotV_nonneg (cat : List Product) (u v : String → ℝ)
    (hu : ∀ t, 0 ≤ u t) (hv : ∀ t, 0 ≤ v t) : 0 ≤ dotV cat u v := by
  unfold dotV
  apply List.sum_nonneg
  intro x hx
  rcases List.mem_map.mp hx with ⟨t, -, rfl⟩
  exact mul_nonneg (hu t) (hv t)

theorem dotV_sq_le (cat : List Product) (u v : String → ℝ)
    (hu : ∀ t, 0 ≤ u t) (hv : ∀ t, 0 ≤ v t) :
    dotV cat u v ^ 2 ≤ dotV cat u u * dotV cat v v := by
  unfold dotV
  generalize vocab cat = l
  induction l with
  | nil => simp
  | cons t l ih =>
    simp only [List.map_cons, List.sum_cons]
    have hA : 0 ≤ (l.map fun s => u s * u s).sum :=
      List.sum_nonneg (by
        intro x hx
        rcases List.mem_map.mp hx with ⟨s, -, rfl⟩
        exact mul_self_nonneg _)
    have hB : 0 ≤ (l.map fun s => v s * v s).sum :=
      List.sum_nonneg (by
        intro x hx
        rcases List.mem_map.mp hx with ⟨s, -, rfl⟩
        exact mul_self_nonneg _)
    have hS : 0 ≤ (l.map fun s => u s * v s).sum :=
      List.sum_nonneg (by
        intro x hx
        rcases List.mem_map.mp hx with ⟨s, -, rfl⟩
        exact mul_nonneg (hu s) (hv s))
    have hsab : (l.map fun s => u s * v s).sum ≤
        Real.sqrt ((l.map fun s => u s * u s).sum) * Real.sqrt ((l.map fun s => v s * v s).sum) := by
      rw [← Real.sqrt_mul hA]
      exact (Real.le_sqrt hS (mul_nonneg hA hB)).mpr ih
    have h2 : 0 ≤ u t * v t + (l.map fun s => u s * v s).sum :=
      add_nonneg (mul_nonneg (hu t) (hv t)) hS
    have h1 : u t * v t + (l.map fun s => u s * v s).sum ≤
        u t * v t + Real.sqrt ((l.map fun s => u s * u s).sum) *
          Real.sqrt ((l.map fun s => v s * v s).sum) := by linarith
    calc (u t * v t + (l.map fun s => u s * v s).sum) ^ 2
        ≤ (u t * v t + Real.sqrt ((l.map fun s => u s * u s).sum) *
            Real.sqrt ((l.map fun s => v s * v s).sum)) ^ 2 := by
          exact pow_le_pow_left₀ h2 h1 2
      _ ≤ (u t * u t + (l.map fun s => u s * u s).sum) *
            (v t * v t + (l.map fun s => v s * v s).sum) := by
          nlinarith [sq_nonneg (u t * Real.sqrt ((l.map fun s => v s * v s).sum) -
              v t * Real.sqrt ((l.map fun s => u s * u s).sum)),
            Real.sq_sqrt hA, Real.sq_sqrt hB,
            Real.sqrt_nonneg ((l.map fun s => u s * u s).sum),
            Real.sqrt_nonneg ((l.map fun s => v s * v s).sum),
            mul_nonneg (hu t) (hv t)]

theorem cosSim_le_one (cat : List Product) (u v : String → ℝ)
    (hu : ∀ t, 0 ≤ u t) (hv : ∀ t, 0 ≤ v t) : cosSim cat u v ≤ 1 := by
  unfold cosSim
  split
  · exact zero_le_one
  · rename_i hz
    push_neg at hz
    obtain ⟨hzu, hzv⟩ := hz
    have hA : 0 ≤ dotV cat u u := dotV_self_nonneg cat u
    have hB : 0 ≤ dotV cat v v := dotV_self_nonneg cat v
    have hsu : 0 < Real.sqrt (dotV cat u u) :=
      lt_of_le_of_ne (Real.sqrt_nonneg _) (Ne.symm hzu)
    have hsv : 0 < Real.sqrt (dotV cat v v) :=
      lt_of_le_of_ne (Real.sqrt_nonneg _) (Ne.symm hzv)
    rw [div_le_one (mul_pos hsu hsv)]
    have hd : 0 ≤ dotV cat u v := dotV_nonneg cat u v hu hv
    calc dotV cat u v = Real.sqrt (dotV cat u v ^ 2) := (Real.sqrt_sq hd).symm
      _ ≤ Real.sqrt (dotV cat u u * dotV cat v v) :=
          Real.sqrt_le_sqrt (dotV_sq_le cat u v hu hv)
      _ = Real.sqrt (dotV cat u u) * Real.sqrt (dotV cat v v) := Real.sqrt_mul hA _

theorem cosSim_self_of_pos (cat : List Product) (u : String → ℝ)
    (hpos : 0 < dotV cat u u) : cosSim cat u u = 1 := by
  unfold cosSim
  rw [if_neg]
  · rw [Real.mul_self_sqrt hpos.le, div_self hpos.ne']
  · rintro (h | h) <;> exact (Real.sqrt_pos.mpr hpos).ne' h

theorem cosSim_zero_left (cat : List Product) (u v : String → ℝ)
    (h : Real.sqrt (dotV cat u u) = 0) : cosSim cat u v = 0 := by
  unfold cosSim
  rw [if_pos (Or.inl h)]

theorem cosSim_of_dot_zero (cat : List Product) (u v : String → ℝ)
    (h : dotV cat u v = 0) : cosSim cat u v = 0 := by
  unfold cosSim
  split
  · rfl
  · rw [h, zero_div]

theorem dotV_eq_zero_of_disjoint (cat : List Product) (d e : String)
    (h : ∀ t ∈ vocab cat, tf d t = 0 ∨ tf e t = 0) :
    dotV cat (tfidfVec cat d) (tfidfVec cat e) = 0 := by
  unfold dotV
  apply List.sum_eq_zero
  intro x hx
  rcases List.mem_map.mp hx with ⟨t, ht, rfl⟩
  rcases h t ht with h0 | h0 <;>
  · unfold tfidfVec
    rw [h0]
    simp

theorem dotV_self_pos (cat : List Product) (d : String) (t : String)
    (htv : t ∈ vocab cat) (htf : tf d t ≠ 0) :
    0 < dotV cat (tfidfVec cat d) (tfidfVec cat d) := by
  have hterm : 0 < tfidfVec cat d t * tfidfVec cat d t := by
    have hpos : 0 < tfidfVec cat d t := by
      unfold tfidfVec
      apply mul_pos
      · exact_mod_cast Nat.pos_of_ne_zero htf
      · exact idf_pos cat t
    exact mul_pos hpos hpos
  have hmem : tfidfVec cat d t * tfidfVec cat d t ∈
      (vocab cat).map (fun s => tfidfVec cat d s * tfidfVec cat d s) :=
    List.mem_map.mpr ⟨t, htv, rfl⟩
  have hle := List.single_le_sum (l := (vocab cat).map (fun s => tfidfVec cat d s * tfidfVec cat d s))
    (by
      intro x hx
      rcases List.mem_map.mp hx with ⟨s, -, rfl⟩
      exact mul_self_nonneg _) _ hmem
  exact lt_of_lt_of_le hterm hle

theorem simRow_self_eq_one (cat : List Product) (i : Nat) (t : String)
    (htv : t ∈ vocab cat) (htf : tf (descAt cat i) t ≠ 0) : simRow cat i i = 1 := by
  unfold simRow docVec
  exact cosSim_self_of_pos cat _ (dotV_self_pos cat (descAt cat i) t htv htf)

theorem simRow_eq_one_of_desc_eq (cat : List Product) (i j : Nat)
    (hd : descAt cat i = descAt cat j) (t : String)
    (htv : t ∈ vocab cat) (htf : tf (descAt cat i) t ≠ 0) : simRow cat i j = 1 := by
  unfold simRow docVec
  rw [← hd]
  exact cosSim_self_of_pos cat _ (dotV_self_pos cat (descAt cat i) t htv htf)

theorem simRow_eq_zero_of_disjoint (cat : List Product) (i j : Nat)
    (h : ∀ t ∈ vocab cat, tf (descAt cat i) t = 0 ∨ tf (descAt cat j) t = 0) :
    simRow cat i j = 0 := by
  unfold simRow docVec
  exact cosSim_of_dot_zero cat _ _ (dotV_eq_zero_of_disjoint cat _ _ h)

theorem simRow_le_one (cat : List Product) (i j : Nat) : simRow cat i j ≤ 1 :=
  cosSim_le_one cat _ _ (docVec_nonneg cat i) (docVec_nonneg cat j)

theorem strict_max_of_no_ties (cat : List Product) (t : Nat) (ht : t < cat.length)
    (hnt : ∀ i < cat.length, ∀ j < cat.length, i ≠ j → simRow cat t i ≠ simRow cat t j) :
    ∀ j < cat.length, j ≠ t → simRow cat t j < simRow cat t t := by
  intro j hj hjt
  by_cases hz : Real.sqrt (dotV cat (docVec cat t) (docVec cat t)) = 0
  · have h1 : simRow cat t j = 0 := by
      unfold simRow
      exact cosSim_zero_left cat _ _ hz
    have h2 : simRow cat t t = 0 := by
      unfold simRow
      exact cosSim_zero_left cat _ _ hz
    exact absurd (h1.trans h2.symm) (hnt j hj t ht hjt)
  · have hpos : 0 < dotV cat (docVec cat t) (docVec cat t) := by
      rcases (dotV_self_nonneg cat (docVec cat t)).lt_or_eq with h | h
      · exact h
      · rw [← h, Real.sqrt_zero] at hz
        exact absurd rfl hz
    have hself : simRow cat t t = 1 := by
      unfold simRow
      exact cosSim_self_of_pos cat _ hpos
    have hle : simRow cat t j ≤ 1 := simRow_le_one cat t j
    rw [hself]
    exact lt_of_le_of_ne hle (by rw [← hself]; exact hnt j hj t ht hjt)

/-- Example catalog of the spec's testable-properties section, with the
description of product B changed to coincide with A's so that a duplicate
description is present. -/
def exampleCat : List Product :=
  [⟨"A", some ("red shoe")⟩, ⟨"B", some ("red shoe")⟩, ⟨"C", some ("blue hat")⟩]

/-- Two-product catalog with disjoint descriptions. -/
def pairCat : List Product :=
  [⟨"A", some ("red shoe")⟩, ⟨"C", some ("blue hat")⟩]

theorem simA00 : simRow exampleCat 0 0 = 1 :=
  simRow_self_eq_one exampleCat 0 ("red") (by decide) (by decide)

theorem simA01 : simRow exampleCat 0 1 = 1 :=
  simRow_eq_one_of_desc_eq exampleCat 0 1 rfl ("red") (by decide) (by decide)

theorem simA02 : simRow exampleCat 0 2 = 0 :=
  simRow_eq_zero_of_disjoint exampleCat 0 2 (by decide)

theorem simC20 : simRow exampleCat 2 0 = 0 :=
  simRow_eq_zero_of_disjoint exampleCat 2 0 (by decide)

theorem simC21 : simRow exampleCat 2 1 = 0 :=
  simRow_eq_zero_of_disjoint exampleCat 2 1 (by decide)

theorem simC22 : simRow exampleCat 2 2 = 1 :=
  simRow_self_eq_one exampleCat 2 ("blue") (by decide) (by decide)

theorem simP00 : simRow pairCat 0 0 = 1 :=
  simRow_self_eq_one pairCat 0 ("red") (by decide) (by decide)

theorem simP01 : simRow pairCat 0 1 = 0 :=
  simRow_eq_zero_of_disjoint pairCat 0 1 (by decide)

theorem scoresA : (List.range exampleCat.length).map (simRow exampleCat 0) = [1, 1, 0] := by
  have h : (List.range exampleCat.length).map (simRow exampleCat 0) =
      [simRow exampleCat 0 0, simRow exampleCat 0 1, simRow exampleCat 0 2] := rfl
  rw [h, simA00, simA01, simA02]

theorem scoresC : (List.range exampleCat.length).map (simRow exampleCat 2) = [0, 0, 1] := by
  have h : (List.range exampleCat.length).map (simRow exampleCat 2) =
      [simRow exampleCat 2 0, simRow exampleCat 2 1, simRow exampleCat 2 2] := rfl
  rw [h, simC20, simC21, simC22]

theorem scoresP : (List.range pairCat.length).map (simRow pairCat 0) = [1, 0] := by
  have h : (List.range pairCat.length).map (simRow pairCat 0) =
      [simRow pairCat 0 0, simRow pairCat 0 1] := rfl
  rw [h, simP00, simP01]

theorem argsort_110 : argsort [(1 : ℝ), 1, 0] = [2, 0, 1] := by
  have h12 : ¬ argLe [(1 : ℝ), 1, 0] 1 2 := by
    rintro (h | ⟨h, -⟩) <;> norm_num [argLe, List.getD] at h
  have h02 : ¬ argLe [(1 : ℝ), 1, 0] 0 2 := by
    rintro (h | ⟨h, -⟩) <;> norm_num [argLe, List.getD] at h
  have h01 : argLe [(1 : ℝ), 1, 0] 0 1 := Or.inr ⟨rfl, by norm_num⟩
  have hr : List.range (List.length [(1 : ℝ), 1, 0]) = [0, 1, 2] := rfl
  unfold argsort
  rw [hr]
  simp only [List.insertionSort, List.orderedInsert]
  rw [if_neg h12]
  simp only [List.orderedInsert]
  rw [if_neg h02]
  rw [if_pos h01]

theorem argsort_001 : argsort [(0 : ℝ), 0, 1] = [0, 1, 2] := by
  have h12 : argLe [(0 : ℝ), 0, 1] 1 2 := Or.inl (by norm_num [List.getD])
  have h01 : argLe [(0 : ℝ), 0, 1] 0 1 := Or.inr ⟨rfl, by norm_num⟩
  have hr : List.range (List.length [(0 : ℝ), 0, 1]) = [0, 1, 2] := rfl
  unfold argsort
  rw [hr]
  simp only [List.insertionSort, List.orderedInsert]
  rw [if_pos h12]
  simp only [List.orderedInsert]
  rw [if_pos h01]

theorem argsort_10 : argsort [(1 : ℝ), 0] = [1, 0] := by
  have h01 : ¬ argLe [(1 : ℝ), 0] 0 1 := by
    rintro (h | ⟨h, -⟩) <;> norm_num [argLe, List.getD] at h
  have hr : List.range (List.length [(1 : ℝ), 0]) = [0, 1] := rfl
  unfold argsort
  rw [hr]
  simp only [List.insertionSort, List.orderedInsert]
  rw [if_neg h01]

theorem bodyA_eq : findRelatedBody ("A") exampleCat 3 = .ok (0, [0, 2]) := by
  have h1 : findRelatedBody ("A") exampleCat 3 =
      .ok (0, (pySlice (argsort ((List.range exampleCat.length).map (simRow exampleCat 0))) 3).reverse) := by
    unfold findRelatedBody
    rw [if_neg (by decide)]
    rfl
  rw [h1, scoresA, argsort_110]
  rfl

theorem bodyC_eq : findRelatedBody ("C") exampleCat 2 = .ok (2, [1, 0]) := by
  have h1 : findRelatedBody ("C") exampleCat 2 =
      .ok (2, (pySlice (argsort ((List.range exampleCat.length).map (simRow exampleCat 2))) 2).reverse) := by
    unfold findRelatedBody
    rw [if_neg (by decide)]
    rfl
  rw [h1, scoresC, argsort_001]
  rfl

theorem bodyP_eq : findRelatedBody ("A") pairCat 3 = .ok (0, [1]) := by
  have h1 : findRelatedBody ("A") pairCat 3 =
      .ok (0, (pySlice (argsort ((List.range pairCat.length).map (simRow pairCat 0))) 3).reverse) := by
    unfold findRelatedBody
    rw [if_neg (by decide)]
    rfl
  rw [h1, scoresP, argsort_10]
  rfl

theorem recA_eq : find_related_products ("A") exampleCat 3 =
    [⟨"A", some ("red shoe")⟩, ⟨"C", some ("blue hat")⟩] := by
  unfold find_related_products
  rw [bodyA_eq]
  rfl

theorem recC_eq : find_related_products ("C") exampleCat 2 =
    [⟨"B", some ("red shoe")⟩, ⟨"A", some ("red shoe")⟩] := by
  unfold find_related_products
  rw [bodyC_eq]
  rfl

theorem scores_length (cat : List Product) (t : Nat) :
    ((List.range cat.length).map (simRow cat t)).length = cat.length := by
  rw [List.length_map, List.length_range]

theorem scores_getD (cat : List Product) (t j : Nat) (hj : j < cat.length) :
    ((List.range cat.length).map (simRow cat t)).getD j 0 = simRow cat t j := by
  rw [List.getD_eq_getElem?_getD, List.getElem?_map, List.getElem?_range hj]
  rfl

theorem pySlice_sublist (l : List Nat) (n : Nat) : (pySlice l n).Sublist l :=
  (List.drop_sublist _ _).trans (List.take_sublist _ _)

theorem filterMap_length_of_lt (cat : List Product) :
    ∀ l : List Nat, (∀ i ∈ l, i < cat.length) →
      (l.filterMap (fun i => cat[i]?)).length = l.length := by
  intro l
  induction l with
  | nil => intro _; rfl
  | cons a l ih =>
    intro h
    simp only [List.filterMap_cons, List.getElem?_eq_getElem (h a (List.mem_cons_self a l)),
      List.length_cons]
    rw [ih (fun i hi => h i (List.mem_cons_of_mem a hi))]

theorem rel_mem_lt (cat : List Product) (t n : Nat) (rel : List Nat)
    (hrel : rel = (pySlice (argsort ((List.range cat.length).map (simRow cat t))) n).reverse) :
    ∀ i ∈ rel, i < cat.length := by
  intro i hi
  rw [hrel, List.mem_reverse] at hi
  have hmem : i ∈ argsort ((List.range cat.length).map (simRow cat t)) :=
    (pySlice_sublist _ _).subset hi
  rw [argsort_mem, scores_length] at hmem
  exact hmem

/-- C7 (amended): whenever the body of find_related_products succeeds (the id
was found and the vocabulary was non-empty), it returns exactly
min(top_n, s-1) products, hence at most top_n; and when no similarity ties
occur in the target's row and top_n covers all other products, the returned
index list is a permutation of all positions other than the target's. -/
theorem c7_amended_theorem (cat : List Product) (pid : String) (n t : Nat) (rel : List Nat)
    (h : findRelatedBody pid cat n = .ok (t, rel)) :
    (find_related_products pid cat n).length ≤ n ∧
      (find_related_products pid cat n).length = min n (cat.length - 1) ∧
      ((∀ i < cat.length, ∀ j < cat.length, i ≠ j → simRow cat t i ≠ simRow cat t j) →
        cat.length - 1 ≤ n → List.Perm rel ((List.range cat.length).erase t)) := by
  obtain ⟨hvoc, hidx, hrel⟩ := findRelatedBody_ok h
  have ht : t < cat.length := idIndex?_lt cat pid t hidx
  have hslen := scores_length cat t
  have hfr : find_related_products pid cat n = rel.filterMap (fun i => cat[i]?) := by
    unfold find_related_products
    rw [h]
  have hmem : ∀ i ∈ rel, i < cat.length := rel_mem_lt cat t n rel hrel
  have hlen : rel.length = min n (cat.length - 1) := by
    rw [hrel, List.length_reverse, pySlice_length, argsort_length, hslen]
  refine ⟨?_, ?_, ?_⟩
  · rw [hfr, filterMap_length_of_lt cat rel hmem, hlen]
    exact min_le_left _ _
  · rw [hfr, filterMap_length_of_lt cat rel hmem, hlen]
  · intro hnt hn
    have hmax := strict_max_of_no_ties cat t ht hnt
    have hmax2 : ∀ j < ((List.range cat.length).map (simRow cat t)).length, j ≠ t →
        ((List.range cat.length).map (simRow cat t)).getD j 0 <
          ((List.range cat.length).map (simRow cat t)).getD t 0 := by
      intro j hj hjt
      rw [hslen] at hj
      rw [scores_getD cat t j hj, scores_getD cat t t ht]
      exact hmax j hj hjt
    obtain ⟨ys, hys, hty⟩ :=
      argsort_last_of_strict_max _ t (by rw [hslen]; exact ht) hmax2
    have hyslen : ys.length = cat.length - 1 := by
      have halen := argsort_length ((List.range cat.length).map (simRow cat t))
      rw [hys, List.length_append, List.length_singleton, hslen] at halen
      omega
    have hdrop : ys.length + 1 - (n + 1) = 0 := by omega
    have hrel2 : rel = ys.reverse := by
      rw [hrel, hys, pySlice_append_last, hdrop, List.drop_zero]
    have hp1 : List.Perm (ys ++ [t]) (List.range cat.length) := by
      have hp := argsort_perm ((List.range cat.length).map (simRow cat t))
      rw [hys, hslen] at hp
      exact hp
    have htr : t ∈ List.range cat.length := List.mem_range.mpr ht
    have hp3 : List.Perm (t :: ys) (t :: (List.range cat.length).erase t) :=
      ((List.perm_append_singleton t ys).symm.trans hp1).trans (List.perm_cons_erase htr)
    rw [hrel2]
    exact (List.reverse_perm ys).trans hp3.cons_inv

theorem c7_amended_witness :
    findRelatedBody ("A") pairCat 3 = .ok (0, [1]) ∧
      (find_related_products ("A") pairCat 3).length = min 3 (pairCat.length - 1) ∧
      List.Perm [1] ((List.range pairCat.length).erase 0) := by
  have hnt : ∀ i < pairCat.length, ∀ j < pairCat.length, i ≠ j →
      simRow pairCat 0 i ≠ simRow pairCat 0 j := by
    intro i hi j hj hij
    have hi2 : i < 2 := hi
    have hj2 : j < 2 := hj
    interval_cases i <;> interval_cases j
    · exact absurd rfl hij
    · rw [simP00, simP01]
      norm_num
    · rw [simP01, simP00]
      norm_num
    · exact absurd rfl hij
  have h := c7_amended_theorem pairCat ("A") 3 0 [1] bodyP_eq
  exact ⟨bodyP_eq, h.2.1, h.2.2 hnt (by decide)⟩

/-- C7 (counterexample): with a duplicate of the target's description in the
catalog, top_n = 3 exceeds the number of other products (two), yet the other
product B is not returned (the target itself takes a slot instead), so the
code does not return all other products in that case. -/
theorem c7_counterexample :
    (⟨"B", some ("red shoe")⟩ : Product) ∈ exampleCat ∧
      (⟨"B", some ("red shoe")⟩ : Product).id ≠ "A" ∧
      exampleCat.length - 1 ≤ 3 ∧
      (⟨"B", some ("red shoe")⟩ : Product) ∉ find_related_products ("A") exampleCat 3 := by
  refine ⟨by decide, by decide, by decide, ?_⟩
  rw [recA_eq]
  decide

/-- C1 (amended): whenever the target's self-similarity (1) strictly exceeds
its similarity with every other product, the target's position never occupies
a returned slot: it is dropped by the slice at the selection step itself.
With identical descriptions present this premise can fail, and the target can
be returned. -/
theorem c1_amended_theorem (cat : List Product) (pid : String) (n t : Nat) (rel : List Nat)
    (h : findRelatedBody pid cat n = .ok (t, rel))
    (hmax : ∀ j < cat.length, j ≠ t → simRow cat t j < simRow cat t t) :
    t ∉ rel ∧ find_related_products pid cat n = rel.filterMap (fun i => cat[i]?) := by
  obtain ⟨hvoc, hidx, hrel⟩ := findRelatedBody_ok h
  have ht : t < cat.length := idIndex?_lt cat pid t hidx
  have hslen := scores_length cat t
  have hmax2 : ∀ j < ((List.range cat.length).map (simRow cat t)).length, j ≠ t →
      ((List.range cat.length).map (simRow cat t)).getD j 0 <
        ((List.range cat.length).map (simRow cat t)).getD t 0 := by
    intro j hj hjt
    rw [hslen] at hj
    rw [scores_getD cat t j hj, scores_getD cat t t ht]
    exact hmax j hj hjt
  obtain ⟨ys, hys, hty⟩ :=
    argsort_last_of_strict_max _ t (by rw [hslen]; exact ht) hmax2
  constructor
  · rw [hrel, hys, pySlice_append_last, List.mem_reverse]
    intro hmem
    exact hty (List.mem_of_mem_drop hmem)
  · unfold find_related_products
    rw [h]

theorem c1_amended_witness :
    findRelatedBody ("A") pairCat 3 = .ok (0, [1]) ∧ (0 : Nat) ∉ [1] := by
  refine ⟨bodyP_eq, (c1_amended_theorem pairCat ("A") 3 0 [1] bodyP_eq ?_).1⟩
  intro j hj hj0
  have hj2 : j < 2 := hj
  interval_cases j
  · exact absurd rfl hj0
  · rw [simP01, simP00]
    norm_num

/-- C1 (counterexample): when another product's description is identical to
the target's, the target itself is returned among the recommendations:
product A is the selected target, and A appears in the output. -/
theorem c1_counterexample :
    (⟨"A", some ("red shoe")⟩ : Product).id = "A" ∧
      (⟨"A", some ("red shoe")⟩ : Product) ∈ exampleCat ∧
      descAt exampleCat 0 = descAt exampleCat 1 ∧
      (⟨"A", some ("red shoe")⟩ : Product) ∈ find_related_products ("A") exampleCat 3 := by
  refine ⟨rfl, by decide, rfl, ?_⟩
  rw [recA_eq]
  decide

/-- C2 (amended): the returned positions are ordered by weakly descending
similarity score — strictly descending when the target's row has no ties —
but products with equal scores are not guaranteed to appear in original
catalog order: on the example they come out reversed, and in general the tie
order depends on the unstable sort the program uses, so no particular tie
order is guaranteed. -/
theorem c2_amended_theorem (cat : List Product) (pid : String) (n t : Nat) (rel : List Nat)
    (h : findRelatedBody pid cat n = .ok (t, rel)) :
    rel.Pairwise (fun a b => simRow cat t b ≤ simRow cat t a) ∧
      ((∀ i < cat.length, ∀ j < cat.length, i ≠ j → simRow cat t i ≠ simRow cat t j) →
        rel.Pairwise (fun a b => simRow cat t b < simRow cat t a)) := by
  obtain ⟨hvoc, hidx, hrel⟩ := findRelatedBody_ok h
  have hslen := scores_length cat t
  have hsorted := argsort_sorted ((List.range cat.length).map (simRow cat t))
  have hsub := pySlice_sublist (argsort ((List.range cat.length).map (simRow cat t))) n
  have hps : (pySlice (argsort ((List.range cat.length).map (simRow cat t))) n).Pairwise
      (argLe ((List.range cat.length).map (simRow cat t))) :=
    List.Pairwise.sublist hsub hsorted
  have hnd : (pySlice (argsort ((List.range cat.length).map (simRow cat t))) n).Nodup :=
    List.Nodup.sublist hsub (argsort_nodup _)
  have hpair := hps.and hnd
  have hbound : ∀ a ∈ pySlice (argsort ((List.range cat.length).map (simRow cat t))) n,
      a < cat.length := by
    intro a ha
    have hmem : a ∈ argsort ((List.range cat.length).map (simRow cat t)) := hsub.subset ha
    rw [argsort_mem, hslen] at hmem
    exact hmem
  constructor
  · rw [hrel]
    apply List.pairwise_reverse.mpr
    apply List.Pairwise.imp_of_mem _ hpair
    intro a b ha hb hab
    rw [← scores_getD cat t a (hbound a ha), ← scores_getD cat t b (hbound b hb)]
    rcases hab.1 with hlt | heq
    · exact hlt.le
    · exact le_of_eq heq.1
  · intro hnt
    rw [hrel]
    apply List.pairwise_reverse.mpr
    apply List.Pairwise.imp_of_mem _ hpair
    intro a b ha hb hab
    rcases hab.1 with hlt | heq
    · rw [← scores_getD cat t a (hbound a ha), ← scores_getD cat t b (hbound b hb)]
      exact hlt
    · refine absurd ?_ (hnt a (hbound a ha) b (hbound b hb) hab.2)
      rw [← scores_getD cat t a (hbound a ha), ← scores_getD cat t b (hbound b hb)]
      exact heq.1

theorem c2_amended_witness :
    findRelatedBody ("C") exampleCat 2 = .ok (2, [1, 0]) ∧
      List.Pairwise (fun a b => simRow exampleCat 2 b ≤ simRow exampleCat 2 a) [1, 0] := by
  have h := c2_amended_theorem exampleCat ("C") 2 2 [1, 0] bodyC_eq
  exact ⟨bodyC_eq, h.1⟩

/-- C2 (counterexample): products A (position 0) and B (position 1) have
equal similarity to target C, yet the output lists B before A: ties come out
in reverse catalog order, not original order. -/
theorem c2_counterexample :
    find_related_products ("C") exampleCat 2 =
        [⟨"B", some ("red shoe")⟩, ⟨"A", some ("red shoe")⟩] ∧
      simRow exampleCat 2 0 = simRow exampleCat 2 1 ∧
      (⟨"A", some ("red shoe")⟩ : Product) ≠ ⟨"B", some ("red shoe")⟩ := by
  refine ⟨recC_eq, ?_, by decide⟩
  rw [simC20, simC21]

/-- C3 (counterexample): with an absent id the lookup raises only an internal
IndexError, which the catch-all handler swallows: the call returns the empty
list normally instead of failing with a ProductNotFound error. -/
theorem c3_counterexample :
    findRelatedBody ("Z") exampleCat 3 = .error .indexError ∧
      find_related_products ("Z") exampleCat 3 = [] := by
  have hb : findRelatedBody ("Z") exampleCat 3 = .error .indexError := by
    unfold findRelatedBody
    rw [if_neg (by decide), show idIndex? exampleCat ("Z") = none from by decide]
  refine ⟨hb, ?_⟩
  unfold find_related_products
  rw [hb]

/-- C3 (amended): when the id is absent the body fails internally (with the
vectorizer error or the index error), the catch-all except clause converts
the failure into an empty result, and the caller observes an empty list, not
a ProductNotFound failure. -/
theorem c3_amended_theorem (cat : List Product) (pid : String) (n : Nat)
    (h : ∀ p ∈ cat, p.id ≠ pid) : find_related_products pid cat n = [] := by
  unfold find_related_products
  by_cases hv : vocab cat = []
  · rw [show findRelatedBody pid cat n = .error .emptyVocabulary from by
      unfold findRelatedBody
      rw [if_pos hv]]
  · rw [show findRelatedBody pid cat n = .error .indexError from by
      unfold findRelatedBody
      rw [if_neg hv, idIndex?_eq_none cat pid h]]

theorem c3_amended_witness :
    (∀ p ∈ exampleCat, p.id ≠ "Z") ∧ find_related_products ("Z") exampleCat 3 = [] :=
  ⟨by decide, c3_amended_theorem exampleCat ("Z") 3 (by decide)⟩
